import Mathlib

/-
Shallow embedding of the tabular-dataset transform engine of
pytorch_pfn_extras/dataset/tabular/_transform.py (classes _Transform and
_TransformBatch), together with the parts of the surrounding contract that
the engine uses.  Cell values are modelled as Nat (they are opaque to the
engine).  Python exceptions are modelled with an explicit error type and
Except.  The lazily memoized self._mode attribute is modelled as an
Option Mode field threaded through get_examples, which returns the updated
object; on an error the updated object is discarded (no claim depends on
the partially updated state Python would keep after raising).
-/

namespace PPE

/-- Packaging discipline of a row or of a transform result: Python tuple,
dict, or scalar (the Python mode value None). -/
inductive Mode where
  | tup
  | dict
  | scalar
deriving DecidableEq, Repr

/-- The Python exceptions the engine can raise. -/
inductive Err where
  | keyError (key : String)
  | indexError
  | typeError (msg : String)
  | attributeError (name : String)
  | valueError (msg : String)
deriving DecidableEq, Repr

/-- Equality of call results is decidable, so concrete scenarios can be
settled by evaluation. -/
instance {ε α : Type} [DecidableEq ε] [DecidableEq α] : DecidableEq (Except ε α) :=
  fun x y =>
    match x, y with
    | .ok a, .ok b =>
      if h : a = b then .isTrue (by rw [h])
      else .isFalse (fun hc => h (by cases hc; rfl))
    | .error a, .error b =>
      if h : a = b then .isTrue (by rw [h])
      else .isFalse (fun hc => h (by cases hc; rfl))
    | .ok _, .error _ => .isFalse (fun hc => Except.noConfusion hc)
    | .error _, .ok _ => .isFalse (fun hc => Except.noConfusion hc)

/-- A value returned by a transform callable: a tuple, a mapping, or a
single scalar, as distinguished by the isinstance checks in get_examples. -/
inductive TResult (β : Type) where
  | tup (vals : List β)
  | map (kvs : List (String × β))
  | scalar (v : β)
deriving DecidableEq, Repr

/-- Which Python type a transform result has, as the three-valued mode tag. -/
def kindOf {β : Type} : TResult β → Mode
  | .tup _ => .tup
  | .map _ => .dict
  | .scalar _ => .scalar

/-- The row-index argument of get_examples: None, a slice, or an explicit
index sequence.  Slices are modelled for non-negative start, stop and step,
with the same clamping slice.indices performs there. -/
inductive RowIdx where
  | all
  | slice (start stop step : Nat)
  | idx (l : List Nat)
deriving Repr

/-- The row positions a RowIdx denotes against a dataset of length n.
A zero step, for which Python raises, is modelled as the empty selection;
no claim exercises it. -/
def realizeIdx : RowIdx → Nat → List Nat
  | .all, n => List.range n
  | .slice s e t, n =>
      if t = 0 then []
      else (List.range ((min e n - min s n + t - 1) / t)).map (fun i => min s n + t * i)
  | .idx l, _ => l

/-- Modelled from the spec: the Tabular Dataset Contract
(tabular_dataset.TabularDataset is not under src/).  A dataset-like entity
exposes a fixed length, an ordered key tuple, a tri-state mode,
get_examples, and an opaque convert hook; it is realized here by a
table of rows. -/
structure Dataset where
  keys : List String
  mode : Mode
  rows : List (List Nat)
  convert : List (List Nat) → List (List Nat)

def Dataset.length (d : Dataset) : Nat := d.rows.length

/-- Modelled from the spec: the contract data-access primitive.  Returns one
column per requested key position, over the requested rows; None for either
argument means all.  Row and column indices are assumed valid (out-of-range
positions read a default instead of raising, which no claim exercises). -/
def Dataset.get_examples (d : Dataset) (indices : RowIdx)
    (keyIndices : Option (List Nat)) : List (List Nat) :=
  let ri := realizeIdx indices d.length
  let ki := keyIndices.getD (List.range d.keys.length)
  ki.map (fun k => ri.map (fun i => (d.rows.getD i []).getD k 0))

/-- A row-wise transform callable, invoked with the operand values in the
declared operand order. -/
abbrev TFn := List Nat → TResult Nat

/-- A signature paired with its callable: ((operand_keys, result_keys), t). -/
abbrev Reg := (List String × List String) × TFn

/-- A selected registration as _find_candidate_transforms returns it:
(ops_idx, transform, res_idx). -/
abbrev Cand := List Nat × TFn × List Nat

/-- Modelled from the spec: _utils._as_key_indices (not under src/) on a
sequence of keys: the position of each key in the canonical tuple, in the
order given by the caller, failing with KeyError for an absent key. -/
def as_key_indices : List String → List String → Except Err (List Nat)
  | [], _ => .ok []
  | k :: rest, canonical =>
    match canonical.findIdx? (fun c => c == k) with
    | none => .error (.keyError k)
    | some i =>
      match as_key_indices rest canonical with
      | .error e => .error e
      | .ok js => .ok (i :: js)

/-- Lexicographic comparison of character lists by code point, the order
Python sorts strings by. -/
def charListLt : List Char → List Char → Bool
  | _, [] => false
  | [], _ :: _ => true
  | a :: as, b :: bs =>
    if a.toNat < b.toNat then true
    else if b.toNat < a.toNat then false
    else charListLt as bs

/-- Lexicographic string comparison. -/
def strLt (s t : String) : Bool := charListLt s.data t.data

/-- Insertion into a strictly sorted list, dropping duplicates.  Together
with sortAllBy this models Python sorted(list(set(...))). -/
def insertSortedBy {α : Type} [DecidableEq α] (lt : α → α → Bool) (a : α) : List α → List α
  | [] => [a]
  | b :: bs =>
    if lt a b then a :: b :: bs
    else if a = b then b :: bs
    else b :: insertSortedBy lt a bs

/-- The sorted list of the distinct elements of l: Python sorted(list(set(l))). -/
def sortAllBy {α : Type} [DecidableEq α] (lt : α → α → Bool) (l : List α) : List α :=
  l.foldl (fun acc a => insertSortedBy lt a acc) []

def sortAllN (l : List Nat) : List Nat := sortAllBy Nat.blt l

def sortAllS (l : List String) : List String := sortAllBy strLt l

/-- The loop body of _Transform._find_candidate_transforms: for each
registration compute the result-key positions in the engine key order, keep
the registration iff every one of them is in the requested column set,
and for kept registrations also resolve the operand positions in the
underlying dataset key order, accumulating them for the fetch set.
(The key_indices-is-None disjunct on line 48 is dead: line 46 has already
converted key_indices to a list.) -/
def collect_candidates (ekeys dkeys : List String) (ks : List Nat) :
    List Reg → Except Err (List Nat × List Cand)
  | [] => .ok ([], [])
  | ((ops, res), f) :: rest =>
    match as_key_indices res ekeys with
    | .error e => .error e
    | .ok resIdx =>
      if resIdx.all (fun r => decide (r ∈ ks)) then
        match as_key_indices ops dkeys with
        | .error e => .error e
        | .ok opsIdx =>
          match collect_candidates ekeys dkeys ks rest with
          | .error e => .error e
          | .ok (o, c) => .ok (opsIdx ++ o, (opsIdx, f, resIdx) :: c)
      else collect_candidates ekeys dkeys ks rest

/-- The row-wise engine _Transform: the wrapped dataset, the transform
registrations, the key tuple computed by __init__, and the memoized _mode
(absent until first set; hasattr corresponds to isSome). -/
structure Transform where
  dataset : Dataset
  transforms : List Reg
  keys : List String
  modeMemo : Option Mode

/-- _Transform.__init__: keys is the sorted union of the result keys of all
registrations, computed once at construction; _mode starts unset. -/
def mkTransform (dataset : Dataset) (transforms : List Reg) : Transform :=
  { dataset := dataset
    transforms := transforms
    keys := sortAllS ((transforms.map (fun r => r.1.2)).flatten)
    modeMemo := none }

def Transform.length (st : Transform) : Nat := st.dataset.length

/-- _Transform._find_candidate_transforms: the deduplicated sorted operand
fetch set together with the selected registrations. -/
def Transform.find_candidate_transforms (st : Transform) (ks : List Nat) :
    Except Err (List Nat × List Cand) :=
  match collect_candidates st.keys st.dataset.keys ks st.transforms with
  | .error e => .error e
  | .ok (o, c) => .ok (sortAllN o, c)

/-- Lines 65-73: re-derive, per transform, the positions of its declared
operands inside the fetched row, which holds the globally deduplicated
sorted fetch set: in_example[ops_idx.index(i)] for i in t_op_idx.
list.index is total here because every declared operand is in the fetch
set by construction; an absent operand reads a default. -/
def projectInputs (opsIdx tOps : List Nat) (inExample : List Nat) : List Nat :=
  tOps.map (fun i => inExample.getD (opsIdx.indexOf i) 0)

/-- out_examples[j].append(v).  j is in range whenever the scattered key was
requested; an out-of-range j leaves the buffers unchanged (unreachable under
the selection rule, where Python would raise instead). -/
def appendAt (bufs : List (List Nat)) (j : Nat) (v : Nat) : List (List Nat) :=
  bufs.set j (bufs.getD j [] ++ [v])

/-- Lines 90-98: scatter a tuple result into the output buffers, the value at
result position c going to the buffer at the position of that result key
among the originally requested columns (key_indices.index(key_index)).
Indexing past the end of the returned tuple raises IndexError. -/
def scatterTupleAux (ks : List Nat) (out : List Nat) :
    List Nat → Nat → List (List Nat) → Except Err (List (List Nat))
  | [], _, bufs => .ok bufs
  | k :: rest, c, bufs =>
    match out.get? c with
    | none => .error .indexError
    | some v => scatterTupleAux ks out rest (c + 1) (appendAt bufs (ks.indexOf k) v)

def scatterTuple (ks resIdx : List Nat) (out : List Nat)
    (bufs : List (List Nat)) : Except Err (List (List Nat)) :=
  scatterTupleAux ks out resIdx 0 bufs

/-- Lines 99-107: scatter a dict result: for every requested column position
look the engine key of that column up in the returned mapping
(out_example[self._keys[key_index]]), raising KeyError when the mapping
lacks it and IndexError when the requested position is outside the key
tuple. -/
def scatterDictAux (ekeys : List String) (out : List (String × Nat)) :
    List Nat → Nat → List (List Nat) → Except Err (List (List Nat))
  | [], _, bufs => .ok bufs
  | kIdx :: rest, c, bufs =>
    match ekeys.get? kIdx with
    | none => .error .indexError
    | some key =>
      match out.find? (fun p => p.1 == key) with
      | none => .error (.keyError key)
      | some p => scatterDictAux ekeys out rest (c + 1) (appendAt bufs c p.2)

def scatterDict (ekeys : List String) (ks : List Nat) (out : List (String × Nat))
    (bufs : List (List Nat)) : Except Err (List (List Nat)) :=
  scatterDictAux ekeys out ks 0 bufs

/-- Lines 108-116: a scalar result becomes the one-tuple (out_example,) and
out_example[key_index] is appended for every requested position, so any
requested position other than 0 raises IndexError. -/
def scatterScalarAux (v : Nat) :
    List Nat → Nat → List (List Nat) → Except Err (List (List Nat))
  | [], _, bufs => .ok bufs
  | kIdx :: rest, c, bufs =>
    if kIdx = 0 then scatterScalarAux v rest (c + 1) (appendAt bufs c v)
    else .error .indexError

def scatterScalar (ks : List Nat) (v : Nat)
    (bufs : List (List Nat)) : Except Err (List (List Nat)) :=
  scatterScalarAux v ks 0 bufs

/-- Lines 74-86: invoke one transform according to the underlying dataset
mode.  Tuple mode applies the callable to the projected inputs.  Dict mode
(lines 78-82) builds keys as a list whose every element is the whole dataset
key tuple, so dict(zip(keys, inputs)) has a tuple as key and the keyword
call transform(**...) raises TypeError before invoking anything (for a
nonempty zip; the degenerate empty case, which would call transform(), is
not modelled and no claim exercises it).  Scalar mode (lines 85-86) reads
self.transform; modelled from the spec, the Tabular Dataset Contract and
_Transform expose no attribute named transform, so the access raises
AttributeError. -/
def applyTransform (dmode : Mode) (f : TFn) (inputs : List Nat) : Except Err (TResult Nat) :=
  match dmode with
  | .tup => .ok (f inputs)
  | .dict => .error (.typeError "keywords must be strings")
  | .scalar => .error (.attributeError "transform")

/-- Lines 87-116: check the memoized mode against the kind of a transform
result: a mismatch with an already established mode raises ValueError msg,
otherwise the mode is (re)established. -/
def checkMode (cur : Option Mode) (k : Mode) (msg : String) : Except Err (Option Mode) :=
  match cur with
  | some m => if m = k then .ok (some k) else .error (.valueError msg)
  | none => .ok (some k)

/-- The inner loop of _Transform.get_examples: apply every selected
registration to one fetched row, threading the memoized mode and the output
buffers. -/
def processTransforms (dmode : Mode) (ekeys : List String) (ks opsIdx : List Nat)
    (inExample : List Nat) :
    List Cand → Option Mode → List (List Nat) → Except Err (List (List Nat) × Option Mode)
  | [], m, bufs => .ok (bufs, m)
  | (tOps, f, tRes) :: rest, m, bufs =>
    match applyTransform dmode f (projectInputs opsIdx tOps inExample) with
    | .error e => .error e
    | .ok out =>
      match out with
      | .tup vs =>
        match checkMode m .tup "transform must not change its return type" with
        | .error e => .error e
        | .ok m2 =>
          match scatterTuple ks tRes vs bufs with
          | .error e => .error e
          | .ok bufs2 => processTransforms dmode ekeys ks opsIdx inExample rest m2 bufs2
      | .map kvs =>
        match checkMode m .dict "transform must not change its return type" with
        | .error e => .error e
        | .ok m2 =>
          match scatterDict ekeys ks kvs bufs with
          | .error e => .error e
          | .ok bufs2 => processTransforms dmode ekeys ks opsIdx inExample rest m2 bufs2
      | .scalar v =>
        match checkMode m .scalar "transform must not change its return type" with
        | .error e => .error e
        | .ok m2 =>
          match scatterScalar ks v bufs with
          | .error e => .error e
          | .ok bufs2 => processTransforms dmode ekeys ks opsIdx inExample rest m2 bufs2

/-- The outer loop of _Transform.get_examples: one pass of processTransforms
per fetched row. -/
def processRows (dmode : Mode) (ekeys : List String) (ks opsIdx : List Nat)
    (cands : List Cand) :
    List (List Nat) → Option Mode → List (List Nat) → Except Err (List (List Nat) × Option Mode)
  | [], m, bufs => .ok (bufs, m)
  | row :: rest, m, bufs =>
    match processTransforms dmode ekeys ks opsIdx row cands m bufs with
    | .error e => .error e
    | .ok (bufs2, m2) => processRows dmode ekeys ks opsIdx cands rest m2 bufs2

/-- The shortest column length, zero for no columns: the number of rows
zip(*in_examples) yields. -/
def minLens : List (List Nat) → Nat
  | [] => 0
  | [c] => c.length
  | c :: cs => min c.length (minLens cs)

/-- zip(*in_examples): the fetched columns turned into rows; no columns
yields no rows. -/
def pyZip (cols : List (List Nat)) : List (List Nat) :=
  (List.range (minLens cols)).map (fun i => cols.map (fun c => c.getD i 0))

/-- key_indices normalized as on lines 58-59: None means every engine key
position in order. -/
def resolveKeyIdx (st : Transform) (keyIndices : Option (List Nat)) : List Nat :=
  keyIndices.getD (List.range st.keys.length)

/-- _Transform.get_examples (lines 57-122). -/
def Transform.get_examples (st : Transform) (indices : RowIdx)
    (keyIndices : Option (List Nat)) : Except Err (List (List Nat) × Transform) :=
  let ks := resolveKeyIdx st keyIndices
  match st.find_candidate_transforms ks with
  | .error e => .error e
  | .ok (opsIdx, cands) =>
    let inExamples := st.dataset.get_examples indices (some opsIdx)
    match processRows st.dataset.mode st.keys ks opsIdx cands (pyZip inExamples)
        st.modeMemo (ks.map (fun _ => [])) with
    | .error e => .error e
    | .ok (bufs, m2) => .ok (bufs, { st with modeMemo := m2 })

/-- The _Transform.mode property: resolve by materializing row 0 when the
memo is unset; if the call completes without establishing a mode (no
selected transform ran) the attribute read on line 30 still fails. -/
def Transform.mode (st : Transform) : Except Err (Mode × Transform) :=
  match st.modeMemo with
  | some m => .ok (m, st)
  | none =>
    match st.get_examples (.idx [0]) none with
    | .error e => .error e
    | .ok (_, st2) =>
      match st2.modeMemo with
      | some m => .ok (m, st2)
      | none => .error (.attributeError "_mode")

/-- _Transform.convert: passthrough to the wrapped dataset. -/
def Transform.convert (st : Transform) (data : List (List Nat)) : List (List Nat) :=
  st.dataset.convert data

/-- A batch transform callable: consumes all the fetched columns and returns
a tuple of columns, a mapping of key to column, or a single column. -/
abbrev TBFn := List (List Nat) → TResult (List Nat)

/-- The batch-wise engine _TransformBatch: the wrapped dataset, the
user-supplied output key tuple (__init__ wraps a single key into a tuple;
the keys are given here already as a list), the single callable, and the
memoized _mode. -/
structure TransformBatch where
  dataset : Dataset
  keys : List String
  transform_batch : TBFn
  modeMemo : Option Mode

def mkTransformBatch (dataset : Dataset) (keys : List String) (tb : TBFn) : TransformBatch :=
  { dataset := dataset, keys := keys, transform_batch := tb, modeMemo := none }

def TransformBatch.length (st : TransformBatch) : Nat := st.dataset.length

/-- Lines 150-157: the expected result length, derived from the row indices:
full dataset length for None, the realized length for a slice, the length of
an explicit index sequence. -/
def expectedLen (st : TransformBatch) (indices : RowIdx) : Nat :=
  match indices with
  | .all => st.length
  | .slice s e t => (realizeIdx (.slice s e t) st.length).length
  | .idx l => l.length

/-- The output columns a batch result carries, for the length check: the
tuple members, the mapping values, or the single column wrapped as the
one-tuple (out_examples,). -/
def outCols : TResult (List Nat) → List (List Nat)
  | .tup cols => cols
  | .map kvs => kvs.map (fun p => p.2)
  | .scalar c => [c]

/-- One output column of a batch result at a requested key position:
out_examples[key_index] for a tuple (IndexError past the end),
out_examples[self._keys[key_index]] for a mapping (IndexError outside the
key tuple, KeyError when the mapping lacks the key), and for a scalar
result the one-tuple indexed by key_index, so only position 0 succeeds. -/
def colAt (out : TResult (List Nat)) (ekeys : List String) (k : Nat) :
    Except Err (List Nat) :=
  match out with
  | .tup cols =>
    match cols.get? k with
    | some c => .ok c
    | none => .error .indexError
  | .map kvs =>
    match ekeys.get? k with
    | none => .error .indexError
    | some key =>
      match kvs.find? (fun p => p.1 == key) with
      | some p => .ok p.2
      | none => .error (.keyError key)
  | .scalar c => if k = 0 then .ok c else .error .indexError

/-- The projection tuple(... for key_index in key_indices), one column per
requested position, stopping at the first failing position. -/
def projectList (f : Nat → Except Err (List Nat)) : List Nat → Except Err (List (List Nat))
  | [] => .ok []
  | k :: rest =>
    match f k with
    | .error e => .error e
    | .ok c =>
      match projectList f rest with
      | .error e => .error e
      | .ok cs => .ok (c :: cs)

/-- _TransformBatch.get_examples (lines 150-209).  All three dataset-mode
dispatch branches invoke the single callable on the columns fetched with
get_examples(indices, None); the dict branch passes them as keywords keyed
by the dataset keys in key order, modelled as the same application.  The
three result branches each check the memoized mode (raising ValueError on a
mismatch), check every output column length against the expected length
(raising ValueError otherwise), and project to the requested positions;
they are written here once over the result kind. -/
def TransformBatch.get_examples (st : TransformBatch) (indices : RowIdx)
    (keyIndices : Option (List Nat)) : Except Err (List (List Nat) × TransformBatch) :=
  let len_ := expectedLen st indices
  let ks := keyIndices.getD (List.range st.keys.length)
  let out := st.transform_batch (st.dataset.get_examples indices none)
  match checkMode st.modeMemo (kindOf out) "transform_batch must not change its return type" with
  | .error e => .error e
  | .ok m2 =>
    if (outCols out).all (fun c => decide (c.length = len_)) then
      match projectList (colAt out st.keys) ks with
      | .error e => .error e
      | .ok res => .ok (res, { st with modeMemo := m2 })
    else .error (.valueError "transform_batch must not change the length of data")

/-- The columns a row-wise get_examples call returns, with the updated
engine object dropped, so that results are comparable by decide. -/
def rowCols (r : Except Err (List (List Nat) × Transform)) : Except Err (List (List Nat)) :=
  match r with
  | .ok (c, _) => .ok c
  | .error e => .error e

/-- The engine object a row-wise get_examples call returns, with a fallback
for the error case. -/
def rowStateAfter (r : Except Err (List (List Nat) × Transform)) (dflt : Transform) : Transform :=
  match r with
  | .ok (_, st) => st
  | .error _ => dflt

/-- The columns a batch get_examples call returns. -/
def batchCols (r : Except Err (List (List Nat) × TransformBatch)) : Except Err (List (List Nat)) :=
  match r with
  | .ok (c, _) => .ok c
  | .error e => .error e

/-- The engine object a batch get_examples call returns. -/
def batchStateAfter (r : Except Err (List (List Nat) × TransformBatch))
    (dflt : TransformBatch) : TransformBatch :=
  match r with
  | .ok (_, st) => st
  | .error _ => dflt

/-- The convert hook of the concrete datasets below; opaque passthrough. -/
def idConv : List (List Nat) → List (List Nat) := fun d => d

/-- Scenario A dataset: keys (a, b, c), tuple mode, rows (1,2,3), (4,5,6),
(7,8,9). -/
def d3 : Dataset :=
  { keys := ["a", "b", "c"], mode := .tup
    rows := [[1, 2, 3], [4, 5, 6], [7, 8, 9]], convert := idConv }

/-- lambda a, b: (a + b,). -/
def sumF : TFn := fun xs => .tup [xs.getD 0 0 + xs.getD 1 0]

/-- Scenario A engine: the single registration ((a, b), (sum,)). -/
def E3 : Transform := mkTransform d3 [((["a", "b"], ["sum"]), sumF)]

def dB : Dataset :=
  { keys := ["a", "b"], mode := .tup, rows := [[1, 2]], convert := idConv }

def sbF1 : TFn := fun xs => .tup [xs.getD 0 0 * 10]

/-- Scenario B engine, generic in the y-producing callable: two disjoint
registrations, (a,) to (x,) and (b,) to (y,). -/
def scenarioB (g : TFn) : Transform :=
  mkTransform dB [((["a"], ["x"]), sbF1), ((["b"], ["y"]), g)]

def sbG : TFn := fun _ => .tup [0]

def d4r : Dataset :=
  { keys := ["a"], mode := .tup, rows := [[1], [2]], convert := idConv }

/-- A callable that returns a tuple on the row holding 1 and a mapping on
any other row: it realizes a transform whose return type changes between
calls. -/
def f4 : TFn := fun xs => if xs.getD 0 0 = 1 then .tup [7] else .map [("x", 8)]

def E4r : Transform := mkTransform d4r [((["a"], ["x"]), f4)]

/-- The row-wise engine after the first call, which returned a tuple and
memoized tuple mode. -/
def st4r1 : Transform := rowStateAfter (E4r.get_examples (.idx [0]) none) E4r

def d4b : Dataset :=
  { keys := ["a"], mode := .tup, rows := [[1], [2], [3], [4]], convert := idConv }

/-- Scenario C callable: returns the columns as a tuple when one row was
fetched and as a mapping otherwise. -/
def tb4 : TBFn := fun cols =>
  if (cols.getD 0 []).length = 1 then .tup cols else .map [("a", cols.getD 0 [])]

def E4b : TransformBatch := mkTransformBatch d4b ["a"] tb4

/-- The batch engine after the first call, which returned a tuple and
memoized tuple mode. -/
def st4b1 : TransformBatch := batchStateAfter (E4b.get_examples (.idx [0]) none) E4b

def d5 : Dataset :=
  { keys := ["a"], mode := .tup
    rows := (List.range 10).map (fun i => [i]), convert := idConv }

/-- A batch callable returning a 9-length column whatever it is given. -/
def tb5 : TBFn := fun _ => .tup [List.range 9]

def E5 : TransformBatch := mkTransformBatch d5 ["a"] tb5

def d6 : Dataset :=
  { keys := ["a"], mode := .tup, rows := [[1]], convert := idConv }

/-- lambda a: (a, a + 1), a single registration producing both x and y. -/
def f6 : TFn := fun xs => .tup [xs.getD 0 0, xs.getD 0 0 + 1]

/-- A row-wise engine with one registration producing the two keys x and y:
requesting only one of them deselects the whole registration. -/
def E6 : Transform := mkTransform d6 [((["a"], ["x", "y"]), f6)]

def d6b : Dataset :=
  { keys := ["a", "b"], mode := .tup, rows := [[1, 2], [3, 4]], convert := idConv }

def tb6 : TBFn := fun cols => .tup cols

def E6b : TransformBatch := mkTransformBatch d6b ["a", "b"] tb6

def d7 : Dataset :=
  { keys := ["a", "b", "c", "d", "e"], mode := .tup
    rows := [[10, 20, 30, 40, 50]], convert := idConv }

/-- lambda d, a: (d - a,): order-sensitive, so a permuted argument order
would be visible in the output. -/
def f7a : TFn := fun xs => .tup [xs.getD 0 0 - xs.getD 1 0]

/-- lambda c: (c + 1,). -/
def f7b : TFn := fun xs => .tup [xs.getD 0 0 + 1]

/-- Two registrations whose operand lists are a permuted subset ((d, a)) and
another subset ((c,)) of the fetched columns: (d, a) to (x,) and (c,) to
(y,). -/
def E7 : Transform := mkTransform d7 [((["d", "a"], ["x"]), f7a), ((["c"], ["y"]), f7b)]

/-- lambda a: (a,). -/
def f8 : TFn := fun xs => .tup [xs.getD 0 0]

/-- A two-row engine over cell values v and w with the single registration
(a,) to (x,). -/
def E8 (v w : Nat) : Transform :=
  mkTransform { keys := ["a"], mode := .tup, rows := [[v], [w]], convert := idConv }
    [((["a"], ["x"]), f8)]

/-- A row-wise engine over a scalar-mode underlying dataset. -/
def E10 : Transform :=
  mkTransform { keys := ["a"], mode := .scalar, rows := [[5]], convert := idConv }
    [((["a"], ["x"]), f8)]

/-! Helper lemmas about the sorted-set construction. -/

theorem charListLt_nil_right (l : List Char) : charListLt l [] = false := by
  cases l <;> rfl

theorem charListLt_cons_cons (a b : Char) (as bs : List Char) :
    charListLt (a :: as) (b :: bs)
      = if a.toNat < b.toNat then true
        else if b.toNat < a.toNat then false
        else charListLt as bs := rfl

theorem charListLt_irrefl : ∀ l : List Char, charListLt l l = false
  | [] => rfl
  | a :: as => by
    rw [charListLt_cons_cons, if_neg (by omega), if_neg (by omega)]
    exact charListLt_irrefl as

theorem charListLt_trans : ∀ x y z : List Char,
    charListLt x y = true → charListLt y z = true → charListLt x z = true := by
  intro x
  induction x with
  | nil =>
    intro y z hxy hyz
    cases z with
    | nil => rw [charListLt_nil_right] at hyz; cases hyz
    | cons c cs => rfl
  | cons a as ih =>
    intro y z hxy hyz
    cases y with
    | nil => rw [charListLt_nil_right] at hxy; cases hxy
    | cons b bs =>
      cases z with
      | nil => rw [charListLt_nil_right] at hyz; cases hyz
      | cons c cs =>
        rw [charListLt_cons_cons] at hxy hyz ⊢
        by_cases hab : a.toNat < b.toNat
        · by_cases hbc : b.toNat < c.toNat
          · rw [if_pos (by omega)]
          · rw [if_neg hbc] at hyz
            by_cases hcb : c.toNat < b.toNat
            · rw [if_pos hcb] at hyz; cases hyz
            · rw [if_pos (by omega)]
        · rw [if_neg hab] at hxy
          by_cases hba : b.toNat < a.toNat
          · rw [if_pos hba] at hxy; cases hxy
          · rw [if_neg hba] at hxy
            by_cases hbc : b.toNat < c.toNat
            · rw [if_pos (by omega)]
            · rw [if_neg hbc] at hyz
              by_cases hcb : c.toNat < b.toNat
              · rw [if_pos hcb] at hyz; cases hyz
              · rw [if_neg hcb] at hyz
                rw [if_neg (by omega), if_neg (by omega)]
                exact ih bs cs hxy hyz

theorem charListLt_total : ∀ x y : List Char,
    x ≠ y → charListLt x y = true ∨ charListLt y x = true := by
  intro x
  induction x with
  | nil =>
    intro y hne
    cases y with
    | nil => exact absurd rfl hne
    | cons b bs => exact Or.inl rfl
  | cons a as ih =>
    intro y hne
    cases y with
    | nil => exact Or.inr rfl
    | cons b bs =>
      rw [charListLt_cons_cons, charListLt_cons_cons]
      by_cases hab : a.toNat < b.toNat
      · exact Or.inl (by rw [if_pos hab])
      · by_cases hba : b.toNat < a.toNat
        · exact Or.inr (by rw [if_pos hba])
        · have hv : a = b := by
            have h3 : a.toNat = b.toNat := by omega
            exact Char.ext (UInt32.toNat.inj h3)
          subst hv
          have has : as ≠ bs := fun h => hne (by rw [h])
          rcases ih bs has with h | h
          · exact Or.inl (by rw [if_neg hab, if_neg hba]; exact h)
          · exact Or.inr (by rw [if_neg hab, if_neg hba]; exact h)

theorem strLt_irrefl (s : String) : strLt s s = false := charListLt_irrefl s.data

theorem strLt_trans (x y z : String) :
    strLt x y = true → strLt y z = true → strLt x z = true :=
  charListLt_trans x.data y.data z.data

theorem strLt_total (x y : String) (h : x ≠ y) :
    strLt x y = true ∨ strLt y x = true := by
  apply charListLt_total
  intro hd
  apply h
  cases x
  cases y
  exact congrArg String.mk hd

theorem natLt_irrefl (x : Nat) : Nat.blt x x = false := by
  rw [← Bool.not_eq_true]
  simp [Nat.blt_eq]

theorem natLt_trans (x y z : Nat) :
    Nat.blt x y = true → Nat.blt y z = true → Nat.blt x z = true := by
  simp only [Nat.blt_eq]
  omega

theorem natLt_total (x y : Nat) (h : x ≠ y) :
    Nat.blt x y = true ∨ Nat.blt y x = true := by
  simp only [Nat.blt_eq]
  omega

theorem insertSortedBy_cons_lt {α : Type} [DecidableEq α] (lt : α → α → Bool)
    (a b : α) (bs : List α) (h : lt a b = true) :
    insertSortedBy lt a (b :: bs) = a :: b :: bs := by
  simp [insertSortedBy, h]

theorem insertSortedBy_cons_self {α : Type} [DecidableEq α] (lt : α → α → Bool)
    (a : α) (bs : List α) (h : ¬lt a a = true) :
    insertSortedBy lt a (a :: bs) = a :: bs := by
  simp [insertSortedBy, h]

theorem insertSortedBy_cons_gt {α : Type} [DecidableEq α] (lt : α → α → Bool)
    (a b : α) (bs : List α) (h1 : ¬lt a b = true) (h2 : a ≠ b) :
    insertSortedBy lt a (b :: bs) = b :: insertSortedBy lt a bs := by
  simp [insertSortedBy, h1, h2]

theorem mem_insertSortedBy {α : Type} [DecidableEq α] (lt : α → α → Bool) (a x : α) :
    ∀ l : List α, x ∈ insertSortedBy lt a l ↔ x = a ∨ x ∈ l := by
  intro l
  induction l with
  | nil => simp [insertSortedBy]
  | cons b bs ih =>
    by_cases h1 : lt a b = true
    · rw [insertSortedBy_cons_lt lt a b bs h1]
      simp [List.mem_cons]
    · by_cases h2 : a = b
      · subst h2
        rw [insertSortedBy_cons_self lt a bs h1]
        simp only [List.mem_cons]
        tauto
      · rw [insertSortedBy_cons_gt lt a b bs h1 h2]
        simp only [List.mem_cons, ih]
        tauto

theorem pairwise_insertSortedBy {α : Type} [DecidableEq α] (lt : α → α → Bool)
    (htr : ∀ x y z, lt x y = true → lt y z = true → lt x z = true)
    (htot : ∀ x y, x ≠ y → lt x y = true ∨ lt y x = true) (a : α) :
    ∀ l : List α, l.Pairwise (fun x y => lt x y = true) →
      (insertSortedBy lt a l).Pairwise (fun x y => lt x y = true) := by
  intro l
  induction l with
  | nil =>
    intro _
    simp [insertSortedBy]
  | cons b bs ih =>
    intro hp
    rcases List.pairwise_cons.mp hp with ⟨hb, hbs⟩
    by_cases h1 : lt a b = true
    · rw [insertSortedBy_cons_lt lt a b bs h1]
      refine List.pairwise_cons.mpr ⟨?_, hp⟩
      intro y hy
      rcases List.mem_cons.mp hy with hy | hy
      · rw [hy]; exact h1
      · exact htr a b y h1 (hb y hy)
    · by_cases h2 : a = b
      · subst h2
        rw [insertSortedBy_cons_self lt a bs h1]
        exact hp
      · rw [insertSortedBy_cons_gt lt a b bs h1 h2]
        refine List.pairwise_cons.mpr ⟨?_, ih hbs⟩
        intro y hy
        rcases (mem_insertSortedBy lt a y bs).mp hy with hy | hy
        · rw [hy]
          rcases htot a b h2 with h | h
          · exact absurd h h1
          · exact h
        · exact hb y hy

theorem mem_sortAllBy {α : Type} [DecidableEq α] (lt : α → α → Bool) (x : α) (l : List α) :
    x ∈ sortAllBy lt l ↔ x ∈ l := by
  have key : ∀ (m : List α) (acc : List α),
      x ∈ m.foldl (fun acc a => insertSortedBy lt a acc) acc ↔ x ∈ acc ∨ x ∈ m := by
    intro m
    induction m with
    | nil => simp
    | cons a as ih =>
      intro acc
      rw [List.foldl_cons, ih, mem_insertSortedBy]
      simp [List.mem_cons]
      tauto
  rw [sortAllBy, key]
  simp

theorem pairwise_sortAllBy {α : Type} [DecidableEq α] (lt : α → α → Bool)
    (htr : ∀ x y z, lt x y = true → lt y z = true → lt x z = true)
    (htot : ∀ x y, x ≠ y → lt x y = true ∨ lt y x = true) (l : List α) :
    (sortAllBy lt l).Pairwise (fun x y => lt x y = true) := by
  have key : ∀ (m : List α) (acc : List α),
      acc.Pairwise (fun x y => lt x y = true) →
      (m.foldl (fun acc a => insertSortedBy lt a acc) acc).Pairwise
        (fun x y => lt x y = true) := by
    intro m
    induction m with
    | nil => intro acc h; exact h
    | cons a as ih =>
      intro acc h
      rw [List.foldl_cons]
      exact ih _ (pairwise_insertSortedBy lt htr htot a acc h)
  exact key l [] (by simp)

theorem nodup_sortAllBy {α : Type} [DecidableEq α] (lt : α → α → Bool)
    (htr : ∀ x y z, lt x y = true → lt y z = true → lt x z = true)
    (htot : ∀ x y, x ≠ y → lt x y = true ∨ lt y x = true)
    (hirr : ∀ x, lt x x = false) (l : List α) : (sortAllBy lt l).Nodup := by
  have h := pairwise_sortAllBy lt htr htot l
  exact h.imp (fun {x y} hxy heq => by rw [heq, hirr] at hxy; cases hxy)

theorem mem_sortAllN (x : Nat) (l : List Nat) : x ∈ sortAllN l ↔ x ∈ l :=
  mem_sortAllBy Nat.blt x l

theorem pairwise_sortAllN (l : List Nat) : (sortAllN l).Pairwise (· < ·) := by
  have h := pairwise_sortAllBy Nat.blt natLt_trans natLt_total l
  exact h.imp (fun {x y} hxy => by simpa [Nat.blt_eq] using hxy)

theorem nodup_sortAllN (l : List Nat) : (sortAllN l).Nodup :=
  nodup_sortAllBy Nat.blt natLt_trans natLt_total natLt_irrefl l

theorem mem_sortAllS (x : String) (l : List String) : x ∈ sortAllS l ↔ x ∈ l :=
  mem_sortAllBy strLt x l

theorem pairwise_sortAllS (l : List String) :
    (sortAllS l).Pairwise (fun x y => strLt x y = true) :=
  pairwise_sortAllBy strLt strLt_trans strLt_total l

theorem nodup_sortAllS (l : List String) : (sortAllS l).Nodup :=
  nodup_sortAllBy strLt strLt_trans strLt_total strLt_irrefl l

/-! Characterization of the selection loop. -/

theorem collect_candidates_spec (ekeys dkeys : List String) (ks : List Nat) :
    ∀ (ts : List Reg) (o : List Nat) (c : List Cand),
      collect_candidates ekeys dkeys ks ts = .ok (o, c) →
      (∀ x ∈ c, ∀ r ∈ x.2.2, r ∈ ks)
      ∧ (∀ ops res f, ((ops, res), f) ∈ ts →
          ∀ resIdx, as_key_indices res ekeys = .ok resIdx →
            (∀ r ∈ resIdx, r ∈ ks) →
            ∀ opsIdx, as_key_indices ops dkeys = .ok opsIdx →
              (opsIdx, f, resIdx) ∈ c)
      ∧ o = (c.map (fun x => x.1)).flatten := by
  intro ts
  induction ts with
  | nil =>
    intro o c h
    simp only [collect_candidates, Except.ok.injEq, Prod.mk.injEq] at h
    obtain ⟨ho, hc⟩ := h
    subst ho
    subst hc
    refine ⟨by simp, by simp, by simp⟩
  | cons reg rest ih =>
    obtain ⟨⟨ops0, res0⟩, f0⟩ := reg
    intro o c h
    cases hres : as_key_indices res0 ekeys with
    | error e =>
      simp only [collect_candidates, hres] at h
      exact Except.noConfusion h
    | ok resIdx0 =>
      by_cases hcnd : resIdx0.all (fun r => decide (r ∈ ks)) = true
      · cases hops : as_key_indices ops0 dkeys with
        | error e =>
          simp only [collect_candidates, hres, hcnd, if_true, hops] at h
          exact Except.noConfusion h
        | ok opsIdx0 =>
          cases hrec : collect_candidates ekeys dkeys ks rest with
          | error e =>
            simp only [collect_candidates, hres, hcnd, if_true, hops, hrec] at h
            exact Except.noConfusion h
          | ok pr =>
            obtain ⟨o2, c2⟩ := pr
            simp only [collect_candidates, hres, hcnd, if_true, hops, hrec,
              Except.ok.injEq, Prod.mk.injEq] at h
            obtain ⟨ho, hc⟩ := h
            subst ho
            subst hc
            obtain ⟨ih1, ih2, ih3⟩ := ih o2 c2 hrec
            refine ⟨?_, ?_, ?_⟩
            · intro x hx r hr
              rcases List.mem_cons.mp hx with hx | hx
              · subst hx
                have := List.all_eq_true.mp hcnd r hr
                exact of_decide_eq_true this
              · exact ih1 x hx r hr
            · intro ops res f hmem resIdx hres2 hcont opsIdx hops2
              rcases List.mem_cons.mp hmem with hmem | hmem
              · obtain ⟨h1, h2⟩ := Prod.mk.injEq .. ▸ hmem
                obtain ⟨h3, h4⟩ := Prod.mk.injEq .. ▸ h1
                subst h3
                subst h4
                subst h2
                rw [hres] at hres2
                have hri : resIdx0 = resIdx := by
                  cases hres2
                  rfl
                subst hri
                rw [hops] at hops2
                have hoi : opsIdx0 = opsIdx := by
                  cases hops2
                  rfl
                subst hoi
                exact List.mem_cons_self _ _
              · exact List.mem_cons_of_mem _ (ih2 ops res f hmem resIdx hres2 hcont opsIdx hops2)
            · simp only [List.map_cons, List.flatten_cons]
              rw [ih3]
      · simp only [collect_candidates, hres] at h
        rw [if_neg hcnd] at h
        obtain ⟨ih1, ih2, ih3⟩ := ih o c h
        refine ⟨ih1, ?_, ih3⟩
        intro ops res f hmem resIdx hres2 hcont opsIdx hops2
        rcases List.mem_cons.mp hmem with hmem | hmem
        · obtain ⟨h1, h2⟩ := Prod.mk.injEq .. ▸ hmem
          obtain ⟨h3, h4⟩ := Prod.mk.injEq .. ▸ h1
          subst h3
          subst h4
          rw [hres] at hres2
          have hri : resIdx0 = resIdx := by
            cases hres2
            rfl
          subst hri
          exfalso
          apply hcnd
          apply List.all_eq_true.mpr
          intro r hr
          exact decide_eq_true (hcont r hr)
        · exact ih2 ops res f hmem resIdx hres2 hcont opsIdx hops2

theorem find_candidate_transforms_inv (st : Transform) (ks opsS : List Nat)
    (cands : List Cand) (h : st.find_candidate_transforms ks = .ok (opsS, cands)) :
    collect_candidates st.keys st.dataset.keys ks st.transforms
      = .ok ((cands.map (fun x => x.1)).flatten, cands)
    ∧ opsS = sortAllN ((cands.map (fun x => x.1)).flatten) := by
  cases hcc : collect_candidates st.keys st.dataset.keys ks st.transforms with
  | error e =>
    simp only [Transform.find_candidate_transforms, hcc] at h
    exact Except.noConfusion h
  | ok pr =>
    obtain ⟨o, c⟩ := pr
    simp only [Transform.find_candidate_transforms, hcc, Except.ok.injEq,
      Prod.mk.injEq] at h
    obtain ⟨h1, h2⟩ := h
    subst h2
    obtain ⟨-, -, h3⟩ := collect_candidates_spec st.keys st.dataset.keys ks
      st.transforms o c hcc
    rw [← h3]
    exact ⟨rfl, h1.symm⟩

/-- C1: In _Transform.get_examples a transform registration is selected,
and only then is its callable invoked, iff every one of its result-key
positions in the engine key order is contained in the requested
column-index set.  First conjunct: every selected candidate satisfies the
containment.  Second conjunct: every registration whose resolved result
positions all lie in the requested set appears among the selected
candidates.  Third conjunct, Scenario B: with two disjoint registrations
producing x and y, a call requesting only the x column index returns the
same value whatever callable produces y, so the y-producing callable is
never invoked. -/
theorem selected_iff_result_contained (st : Transform) (ks opsS : List Nat)
    (cands : List Cand) (h : st.find_candidate_transforms ks = .ok (opsS, cands)) :
    (∀ x ∈ cands, ∀ r ∈ x.2.2, r ∈ ks)
    ∧ (∀ ops res f, ((ops, res), f) ∈ st.transforms →
        ∀ resIdx, as_key_indices res st.keys = .ok resIdx →
          (∀ r ∈ resIdx, r ∈ ks) →
          ∀ opsIdx, as_key_indices ops st.dataset.keys = .ok opsIdx →
            (opsIdx, f, resIdx) ∈ cands)
    ∧ (∀ g : TFn, rowCols ((scenarioB g).get_examples .all (some [0])) = .ok [[10]]) := by
  obtain ⟨hcc, -⟩ := find_candidate_transforms_inv st ks opsS cands h
  obtain ⟨h1, h2, -⟩ := collect_candidates_spec st.keys st.dataset.keys ks
    st.transforms _ cands hcc
  exact ⟨h1, h2, fun g => rfl⟩

theorem selected_iff_result_contained_witness :
    (0 : Nat) ∈ ([0] : List Nat)
    ∧ rowCols ((scenarioB sbG).get_examples .all (some [0])) = .ok [[10]] := by
  have t := selected_iff_result_contained (scenarioB sbG) [0] [0]
    [([0], sbF1, [0])] rfl
  exact ⟨t.1 ([0], sbF1, [0]) (by simp) 0 (by simp), t.2.2 sbG⟩

/-- C2: The column-index set a _Transform.get_examples call passes to the
underlying dataset (line 61 passes the first component of
_find_candidate_transforms verbatim) is exactly the deduplicated, sorted
union of the operand positions of the selected registrations: it is
strictly sorted, duplicate-free, contains an index iff some selected
registration needs it, and equals the sorted deduplication of the selected
operand lists — never more columns, never fewer. -/
theorem fetch_set_sorted_union (st : Transform) (ks opsS : List Nat)
    (cands : List Cand) (h : st.find_candidate_transforms ks = .ok (opsS, cands)) :
    opsS.Pairwise (· < ·) ∧ opsS.Nodup
    ∧ (∀ n, n ∈ opsS ↔ ∃ x ∈ cands, n ∈ x.1)
    ∧ opsS = sortAllN ((cands.map (fun x => x.1)).flatten) := by
  obtain ⟨hcc, heq⟩ := find_candidate_transforms_inv st ks opsS cands h
  subst heq
  refine ⟨pairwise_sortAllN _, nodup_sortAllN _, ?_, rfl⟩
  intro n
  rw [mem_sortAllN, List.mem_flatten]
  constructor
  · rintro ⟨l, hl, hn⟩
    rcases List.mem_map.mp hl with ⟨x, hx, rfl⟩
    exact ⟨x, hx, hn⟩
  · rintro ⟨x, hx, hn⟩
    exact ⟨x.1, List.mem_map_of_mem (fun x => x.1) hx, hn⟩

theorem fetch_set_sorted_union_witness :
    List.Pairwise (· < ·) ([0, 1] : List Nat)
    ∧ ([0, 1] : List Nat) = sortAllN [0, 1] := by
  have t := fetch_set_sorted_union E3 [0] [0, 1] [([0, 1], sumF, [0])] rfl
  exact ⟨t.1, t.2.2.2⟩

/-- C3: Scenario A: over the dataset with keys (a, b, c), tuple mode and
rows (1,2,3), (4,5,6), (7,8,9), the engine with the single registration
((a, b), (sum,)) and the callable returning (a + b,) exposes keys (sum,),
and get_examples([0, 1, 2], None) returns ([3, 9, 15],). -/
theorem scenarioA_sum_engine :
    E3.keys = ["sum"]
    ∧ rowCols (E3.get_examples (.idx [0, 1, 2]) none) = .ok [[3, 9, 15]] := by
  exact ⟨by decide, by decide⟩

/-! Error-propagation helpers for the row-wise engine. -/

theorem get_examples_error_lift (st : Transform) (idx : RowIdx) (ki : Option (List Nat))
    (ops : List Nat) (cands : List Cand) (e : Err)
    (hf : st.find_candidate_transforms (resolveKeyIdx st ki) = .ok (ops, cands))
    (hp : processRows st.dataset.mode st.keys (resolveKeyIdx st ki) ops cands
        (pyZip (st.dataset.get_examples idx (some ops))) st.modeMemo
        ((resolveKeyIdx st ki).map (fun _ => [])) = .error e) :
    st.get_examples idx ki = .error e := by
  simp only [Transform.get_examples, hf, hp]

theorem processRows_first_error (dmode : Mode) (ekeys : List String)
    (ks opsIdx : List Nat) (cands : List Cand) (row : List Nat)
    (rows : List (List Nat)) (m : Option Mode) (bufs : List (List Nat)) (e : Err)
    (h : processTransforms dmode ekeys ks opsIdx row cands m bufs = .error e) :
    processRows dmode ekeys ks opsIdx cands (row :: rows) m bufs = .error e := by
  simp only [processRows, h]

theorem processTransforms_mismatch (ekeys : List String) (ks opsIdx : List Nat)
    (row tOps : List Nat) (f : TFn) (tRes : List Nat) (cs : List Cand)
    (m : Mode) (bufs : List (List Nat))
    (hk : kindOf (f (projectInputs opsIdx tOps row)) ≠ m) :
    processTransforms .tup ekeys ks opsIdx row ((tOps, f, tRes) :: cs) (some m) bufs
      = .error (.valueError "transform must not change its return type") := by
  simp only [processTransforms, applyTransform]
  cases hout : f (projectInputs opsIdx tOps row) with
  | tup vs =>
    rw [hout] at hk
    simp only [kindOf] at hk
    simp only [hout, checkMode]
    rw [if_neg (fun he => hk he.symm)]
  | map kvs =>
    rw [hout] at hk
    simp only [kindOf] at hk
    simp only [hout, checkMode]
    rw [if_neg (fun he => hk he.symm)]
  | scalar v =>
    rw [hout] at hk
    simp only [kindOf] at hk
    simp only [hout, checkMode]
    rw [if_neg (fun he => hk he.symm)]

/-- C4: Once a call has established the memoized mode, a later transform
invocation returning a different kind raises.  First conjunct, row-wise
engine in general: with the memo set to m, a call whose first selected
registration returns a result of a kind other than m on the first row
errors with ValueError, message for the row-wise engine.  Second conjunct,
batch engine in general: with the memo set to bm and the callable returning
a different kind, the call errors with the batch message.  The remaining
conjuncts realize the two-call scenarios concretely: the row-wise engine
E4r returns a tuple on the first call, memoizes tuple mode, and the second
call, on which the transform returns a mapping, raises; a single call that
drifts across its two rows raises as well; the batch engine E4b behaves
the same with the batch message (Scenario C). -/
theorem return_type_drift_raises
    (st : Transform) (idx : RowIdx) (ki : Option (List Nat))
    (ops tOps tRes : List Nat) (f : TFn) (cs : List Cand) (row : List Nat)
    (rows : List (List Nat)) (m : Mode)
    (hmodeD : st.dataset.mode = .tup)
    (hmemo : st.modeMemo = some m)
    (hf : st.find_candidate_transforms (resolveKeyIdx st ki)
        = .ok (ops, (tOps, f, tRes) :: cs))
    (hz : pyZip (st.dataset.get_examples idx (some ops)) = row :: rows)
    (hk : kindOf (f (projectInputs ops tOps row)) ≠ m)
    (bst : TransformBatch) (bidx : RowIdx) (bki : Option (List Nat)) (bm : Mode)
    (hbm : bst.modeMemo = some bm)
    (hbk : kindOf (bst.transform_batch (bst.dataset.get_examples bidx none)) ≠ bm) :
    st.get_examples idx ki
        = .error (.valueError "transform must not change its return type")
    ∧ bst.get_examples bidx bki
        = .error (.valueError "transform_batch must not change its return type")
    ∧ rowCols (E4r.get_examples (.idx [0]) none) = .ok [[7]]
    ∧ st4r1.modeMemo = some .tup
    ∧ rowCols (st4r1.get_examples (.idx [1]) none)
        = .error (.valueError "transform must not change its return type")
    ∧ rowCols (E4r.get_examples (.idx [0, 1]) none)
        = .error (.valueError "transform must not change its return type")
    ∧ batchCols (E4b.get_examples (.idx [0]) none) = .ok [[1]]
    ∧ st4b1.modeMemo = some .tup
    ∧ batchCols (st4b1.get_examples (.idx [0, 1]) none)
        = .error (.valueError "transform_batch must not change its return type") := by
  refine ⟨?_, ?_, by decide, by decide, by decide, by decide, by decide, by decide, by decide⟩
  · apply get_examples_error_lift st idx ki ops ((tOps, f, tRes) :: cs) _ hf
    rw [hmodeD, hz, hmemo]
    exact processRows_first_error _ _ _ _ _ _ _ _ _ _
      (processTransforms_mismatch _ _ _ _ _ _ _ _ _ _ hk)
  · simp only [TransformBatch.get_examples, hbm, checkMode]
    rw [if_neg (fun he => hbk he.symm)]

theorem return_type_drift_raises_witness :
    st4r1.get_examples (.idx [1]) none
        = .error (.valueError "transform must not change its return type")
    ∧ st4b1.get_examples (.idx [0, 1]) none
        = .error (.valueError "transform_batch must not change its return type") := by
  have t := return_type_drift_raises st4r1 (.idx [1]) none [0] [0] [0] f4 [] [2] []
    .tup rfl rfl rfl rfl (by decide) st4b1 (.idx [0, 1]) none .tup rfl (by decide)
  exact ⟨t.1, t.2.1⟩

/-- C10: Over a scalar-mode underlying dataset (mode None), any row-wise
get_examples call with at least one fetched row and at least one selected
registration raises AttributeError: the dispatch branch on lines 85-86
reads the undefined attribute self.transform, so the row-wise engine never
produces output over a scalar-mode underlying dataset. -/
theorem scalar_mode_attribute_error (st : Transform) (idx : RowIdx)
    (ki : Option (List Nat)) (ops : List Nat) (c : Cand) (cs : List Cand)
    (row : List Nat) (rows : List (List Nat))
    (hmodeD : st.dataset.mode = .scalar)
    (hf : st.find_candidate_transforms (resolveKeyIdx st ki) = .ok (ops, c :: cs))
    (hz : pyZip (st.dataset.get_examples idx (some ops)) = row :: rows) :
    st.get_examples idx ki = .error (.attributeError "transform") := by
  obtain ⟨tOps, f, tRes⟩ := c
  apply get_examples_error_lift st idx ki ops _ _ hf
  rw [hmodeD, hz]
  apply processRows_first_error
  rfl

theorem scalar_mode_attribute_error_witness :
    E10.get_examples .all none = .error (.attributeError "transform") :=
  scalar_mode_attribute_error E10 .all none [0] ([0], f8, [0]) [] [5] [] rfl rfl rfl

/-- C5: In _TransformBatch.get_examples, whenever the mode check passes (the
memo is unset or matches the result kind) but some output column length
differs from the expected row count, the call raises ValueError with the
message about changing the length of data; the expected count is derived
from the row indices as the conjuncts state: full length for None, realized
length for a slice, length of an explicit index sequence.  The witness
realizes the 10-row, 9-length-column example. -/
theorem batch_length_violation_raises
    (st : TransformBatch) (idx : RowIdx) (ki : Option (List Nat))
    (s e t : Nat) (l : List Nat)
    (hm : st.modeMemo = none
        ∨ st.modeMemo
            = some (kindOf (st.transform_batch (st.dataset.get_examples idx none))))
    (hlen : ¬(outCols (st.transform_batch (st.dataset.get_examples idx none))).all
        (fun c => decide (c.length = expectedLen st idx)) = true) :
    st.get_examples idx ki
        = .error (.valueError "transform_batch must not change the length of data")
    ∧ expectedLen st .all = st.length
    ∧ expectedLen st (.slice s e t) = (realizeIdx (.slice s e t) st.length).length
    ∧ expectedLen st (.idx l) = l.length := by
  refine ⟨?_, rfl, rfl, rfl⟩
  simp only [TransformBatch.get_examples]
  rcases hm with hm | hm
  · simp only [hm, checkMode]
    rw [if_neg hlen]
  · simp only [hm, checkMode, eq_self_iff_true, if_true]
    rw [if_neg hlen]

theorem batch_length_violation_raises_witness :
    ¬(outCols (E5.transform_batch
          (E5.dataset.get_examples (.idx [0, 1, 2, 3, 4, 5, 6, 7, 8, 9]) none))).all
        (fun c => decide (c.length
          = expectedLen E5 (.idx [0, 1, 2, 3, 4, 5, 6, 7, 8, 9]))) = true
    ∧ E5.get_examples (.idx [0, 1, 2, 3, 4, 5, 6, 7, 8, 9]) none
        = .error (.valueError "transform_batch must not change the length of data") := by
  refine ⟨by decide, ?_⟩
  exact (batch_length_violation_raises E5 (.idx [0, 1, 2, 3, 4, 5, 6, 7, 8, 9]) none
    0 0 1 [] (Or.inl rfl) (by decide)).1

/-! Projection lemmas for the batch engine. -/

theorem projectList_ok_length (f : Nat → Except Err (List Nat)) :
    ∀ (l : List Nat) (cols : List (List Nat)),
      projectList f l = .ok cols → cols.length = l.length := by
  intro l
  induction l with
  | nil =>
    intro cols h
    simp only [projectList, Except.ok.injEq] at h
    rw [← h]
    rfl
  | cons k rest ih =>
    intro cols h
    cases hk : f k with
    | error e =>
      simp only [projectList, hk] at h
      exact Except.noConfusion h
    | ok c =>
      cases hr : projectList f rest with
      | error e =>
        simp only [projectList, hk, hr] at h
        exact Except.noConfusion h
      | ok cs =>
        simp only [projectList, hk, hr, Except.ok.injEq] at h
        rw [← h]
        simp [ih cs hr]

theorem projectList_ok_get (f : Nat → Except Err (List Nat)) :
    ∀ (l : List Nat) (cols : List (List Nat)),
      projectList f l = .ok cols →
      ∀ i, i < l.length → f (l.getD i 0) = .ok (cols.getD i []) := by
  intro l
  induction l with
  | nil =>
    intro cols h i hi
    exact absurd hi (by simp)
  | cons k rest ih =>
    intro cols h i hi
    cases hk : f k with
    | error e =>
      simp only [projectList, hk] at h
      exact Except.noConfusion h
    | ok c =>
      cases hr : projectList f rest with
      | error e =>
        simp only [projectList, hk, hr] at h
        exact Except.noConfusion h
      | ok cs =>
        simp only [projectList, hk, hr, Except.ok.injEq] at h
        rw [← h]
        cases i with
        | zero => simpa using hk
        | succ j =>
          simp only [List.getD_cons_succ]
          exact ih cs hr j (by simpa using hi)

theorem projectList_of_pointwise (f : Nat → Except Err (List Nat))
    (g : Nat → List Nat) :
    ∀ sub : List Nat, (∀ k ∈ sub, f k = .ok (g k)) →
      projectList f sub = .ok (sub.map g) := by
  intro sub
  induction sub with
  | nil => intro _; rfl
  | cons k rest ih =>
    intro h
    have hk := h k (List.mem_cons_self k rest)
    have hr := ih (fun x hx => h x (List.mem_cons_of_mem k hx))
    simp only [projectList, hk, hr, List.map_cons]

/-- C6 (amended): column projection correctness holds for the batch-wise
engine: for every row-index argument and every valid subset of column
indices, whenever get_examples(idx, None) succeeds, get_examples(idx,
subset) returns exactly the columns at those positions of the full result,
with the same resulting engine state.  (For the row-wise engine the claim
fails; see the counterexample.) -/
theorem batch_projection_correct (st : TransformBatch) (idx : RowIdx)
    (sub : List Nat) (cols : List (List Nat)) (st2 : TransformBatch)
    (hfull : st.get_examples idx none = .ok (cols, st2))
    (hsub : ∀ k ∈ sub, k < st.keys.length) :
    st.get_examples idx (some sub) = .ok (sub.map (fun k => cols.getD k []), st2) := by
  cases hcm : checkMode st.modeMemo
      (kindOf (st.transform_batch (st.dataset.get_examples idx none)))
      "transform_batch must not change its return type" with
  | error e =>
    simp only [TransformBatch.get_examples, Option.getD_none, hcm] at hfull
    exact Except.noConfusion hfull
  | ok m2 =>
    simp only [TransformBatch.get_examples, Option.getD_none, Option.getD_some, hcm]
      at hfull ⊢
    by_cases hc : (outCols (st.transform_batch (st.dataset.get_examples idx none))).all
        (fun c => decide (c.length = expectedLen st idx)) = true
    · rw [if_pos hc] at hfull ⊢
      split at hfull
      · exact Except.noConfusion hfull
      · rename_i res hpl
        simp only [Except.ok.injEq, Prod.mk.injEq] at hfull
        obtain ⟨h1, h2⟩ := hfull
        have hpoint : ∀ k ∈ sub,
            colAt (st.transform_batch (st.dataset.get_examples idx none)) st.keys k
              = .ok (cols.getD k []) := by
          intro k hk
          have hklt := hsub k hk
          have hg := projectList_ok_get _ _ _ hpl k (by simpa using hklt)
          have hrd : (List.range st.keys.length).getD k 0 = k := by
            rw [List.getD_eq_getElem?_getD, List.getElem?_range hklt]
            rfl
          rw [hrd] at hg
          rw [hg, h1]
        simp only [projectList_of_pointwise _ _ sub hpoint]
        rw [h2]
    · rw [if_neg hc] at hfull
      exact Except.noConfusion hfull

theorem batch_projection_correct_witness :
    E6b.get_examples .all (some [1])
      = .ok ([[2, 4]], batchStateAfter (E6b.get_examples .all none) E6b) := by
  have t := batch_projection_correct E6b .all [1] [[1, 3], [2, 4]]
    (batchStateAfter (E6b.get_examples .all none) E6b) rfl (by decide)
  exact t

/-- C6 (counterexample): for the row-wise engine the claim as stated is
false.  Over E6, whose single registration produces both x and y,
get_examples(all rows, None) returns ([1], [2]), but requesting only the
column index of x deselects the registration and returns an empty bucket
instead of the projected column [1]. -/
theorem row_projection_counterexample :
    rowCols (E6.get_examples .all none) = .ok [[1], [2]]
    ∧ ¬rowCols (E6.get_examples .all (some [0]))
        = .ok ([0].map (fun k => ([[1], [2]] : List (List Nat)).getD k [])) := by
  exact ⟨by decide, by decide⟩

/-- C7: Per-registration argument projection and result scattering are
correct.  First conjunct: when the fetched row carries the value row i at
every fetched position i (in_example = ops_idx mapped through row), the
inputs the engine computes for a registration whose declared operands all
lie in the fetch set are exactly the row values at the declared operand
positions, in declared order — whatever permutation or superset the
deduplicated sorted fetch set is.  Second conjunct: a value scattered with
appendAt at ks.indexOf k lands in the output buffer at the position j that
the result key k occupies among the originally requested columns ks.
Third conjunct: the two-registration engine E7, whose first registration
declares the permuted operand list (d, a) inside the fetch set
(a, c, d) shared with the (c,)-registration, produces (d - a,) = (30,) and
(c + 1,) = (31,) in the requested output positions. -/
theorem operand_remap_and_scatter
    (opsIdx tOps : List Nat) (row : Nat → Nat)
    (hsubset : ∀ i ∈ tOps, i ∈ opsIdx)
    (ks : List Nat) (bufs : List (List Nat)) (j k v : Nat)
    (hnd : ks.Nodup) (hj : j < ks.length) (hjb : j < bufs.length)
    (hk : ks.getD j 0 = k) :
    projectInputs opsIdx tOps (opsIdx.map row) = tOps.map row
    ∧ (appendAt bufs (ks.indexOf k) v).getD j [] = bufs.getD j [] ++ [v]
    ∧ rowCols (E7.get_examples .all none) = .ok [[30], [31]] := by
  refine ⟨?_, ?_, by decide⟩
  · unfold projectInputs
    apply List.map_congr_left
    intro i hi
    have hm := hsubset i hi
    have hlt : opsIdx.indexOf i < opsIdx.length := List.indexOf_lt_length.mpr hm
    rw [List.getD_eq_getElem?_getD, List.getElem?_map,
      List.getElem?_eq_getElem hlt]
    simp [List.getElem_indexOf hlt]
  · have hkj : ks.indexOf k = j := by
      have hke : ks[j] = k := by
        rw [List.getD_eq_getElem?_getD, List.getElem?_eq_getElem hj] at hk
        exact hk
      rw [← hke]
      exact List.indexOf_getElem hnd j hj
    rw [appendAt, hkj]
    have hlen : j < (bufs.set j (bufs.getD j [] ++ [v])).length := by
      simpa using hjb
    rw [List.getD_eq_getElem?_getD, List.getElem?_eq_getElem hlen]
    simp [List.getElem_set_self]

theorem operand_remap_and_scatter_witness :
    projectInputs [0, 2, 3] [3, 0]
        ([0, 2, 3].map (fun i => ([10, 20, 30, 40, 50] : List Nat).getD i 0))
      = [3, 0].map (fun i => ([10, 20, 30, 40, 50] : List Nat).getD i 0)
    ∧ (appendAt [[], []] (([0, 1] : List Nat).indexOf 0) 5).getD 0 [] = [] ++ [5] := by
  have t := operand_remap_and_scatter [0, 2, 3] [3, 0]
    (fun i => ([10, 20, 30, 40, 50] : List Nat).getD i 0)
    (by decide) [0, 1] [[], []] 0 0 5 (by decide) (by decide) (by decide) (by decide)
  exact ⟨t.1, t.2.1⟩

/-- C8: In the row-wise engine a get_examples call that requests an output
column index owned by no registered transform — over E8 the engine key
tuple is (x,) and position 1 is owned by nothing — does not raise: it
returns the empty bucket at that position and produces the owned column
normally. -/
theorem unowned_column_empty_bucket (v w : Nat) :
    rowCols ((E8 v w).get_examples .all (some [0, 1])) = .ok [[v, w], []] := rfl

/-! State-preservation helpers for the row-wise engine. -/

theorem get_examples_ok_keys (st : Transform) (idx : RowIdx)
    (ki : Option (List Nat)) (cols : List (List Nat)) (st2 : Transform)
    (h : st.get_examples idx ki = .ok (cols, st2)) :
    st2.keys = st.keys ∧ st2.dataset = st.dataset ∧ st2.transforms = st.transforms := by
  simp only [Transform.get_examples] at h
  split at h
  · exact Except.noConfusion h
  · split at h
    · exact Except.noConfusion h
    · simp only [Except.ok.injEq, Prod.mk.injEq] at h
      obtain ⟨h1, h2⟩ := h
      rw [← h2]
      exact ⟨rfl, rfl, rfl⟩

/-- C9: The exposed keys of the row-wise engine are the sorted union of the
result keys across all registrations — an engine key is exactly a key some
registration produces, the tuple is strictly sorted lexicographically and
duplicate-free — computed by the constructor, and no subsequent operation
changes it: a completed get_examples call and a completed mode resolution
return an engine with the same keys (len and convert read no engine state
at all). -/
theorem keys_sorted_union_immutable
    (d : Dataset) (ts : List Reg) (k : String)
    (st : Transform) (idx : RowIdx) (ki : Option (List Nat))
    (cols : List (List Nat)) (st2 : Transform)
    (hg : st.get_examples idx ki = .ok (cols, st2))
    (stm : Transform) (m : Mode) (stm2 : Transform)
    (hm : stm.mode = .ok (m, stm2)) :
    (k ∈ (mkTransform d ts).keys ↔ ∃ r ∈ ts, k ∈ r.1.2)
    ∧ (mkTransform d ts).keys.Pairwise (fun a b => strLt a b = true)
    ∧ (mkTransform d ts).keys.Nodup
    ∧ st2.keys = st.keys
    ∧ stm2.keys = stm.keys := by
  refine ⟨?_, pairwise_sortAllS _, nodup_sortAllS _, (get_examples_ok_keys _ _ _ _ _ hg).1, ?_⟩
  · rw [mkTransform]
    simp only
    rw [mem_sortAllS, List.mem_flatten]
    constructor
    · rintro ⟨l, hl, hk⟩
      rcases List.mem_map.mp hl with ⟨r, hr, rfl⟩
      exact ⟨r, hr, hk⟩
    · rintro ⟨r, hr, hk⟩
      exact ⟨r.1.2, List.mem_map_of_mem (fun r => r.1.2) hr, hk⟩
  · cases hmm : stm.modeMemo with
    | some m0 =>
      simp only [Transform.mode, hmm, Except.ok.injEq, Prod.mk.injEq] at hm
      rw [← hm.2]
    | none =>
      simp only [Transform.mode, hmm] at hm
      split at hm
      · exact Except.noConfusion hm
      · rename_i cols0 st3 hge
        split at hm
        · simp only [Except.ok.injEq, Prod.mk.injEq] at hm
          rw [← hm.2]
          exact (get_examples_ok_keys _ _ _ _ _ hge).1
        · exact Except.noConfusion hm

theorem keys_sorted_union_immutable_witness :
    (mkTransform d3 [((["a", "b"], ["sum"]), sumF)]).keys.Nodup
    ∧ (rowStateAfter (E3.get_examples (.idx [0]) none) E3).keys = E3.keys := by
  have t := keys_sorted_union_immutable d3 [((["a", "b"], ["sum"]), sumF)] "sum"
    E3 (.idx [0]) none [[3]] (rowStateAfter (E3.get_examples (.idx [0]) none) E3) rfl
    E3 .tup (rowStateAfter (E3.get_examples (.idx [0]) none) E3) rfl
  exact ⟨t.2.2.1, t.2.2.2.1⟩

end PPE

